import Mathlib

/-!
Verification of the emu_cxx_utils replication / reduction / distributed-array
library (headers under src/: replicated.h, reducers.h, striped_array.h,
repl_array.h).

The machine model: a fixed number of partitions ("nodelets"), each holding one
physical copy of a replicated object.  A replicated scalar is modelled as the
list of its per-partition copies; the C++ loops that walk `get_nth(i)` for
`i in [0, NODELETS())` become folds over `List.range`.
-/

namespace EmuRepl

/-- Model of `repl<T>::operator=` (src/replicated.h lines 300-308):
`for (long i = 0; i < NODELETS(); ++i) get_nth(i) = rhs;`.
The per-partition copies are the entries of the list; the loop is a fold
over the partition ids that overwrites each copy with `rhs`. -/
def repl_assign {T : Type} (copies : List T) (rhs : T) : List T :=
  (List.range copies.length).foldl (fun cs i => cs.set i rhs) copies

/-- Model of the value constructor `repl<T>(T x)` (src/replicated.h lines
278-281), which simply calls `operator=(x)` on the (uninitialized) storage.
`init` stands for the arbitrary contents of the fresh replicated storage. -/
def repl_construct {T : Type} (init : List T) (x : T) : List T :=
  repl_assign init x

theorem foldl_set_length {T : Type} (rhs : T) :
    ∀ (n : Nat) (cs : List T),
      ((List.range n).foldl (fun cs i => cs.set i rhs) cs).length = cs.length := by
  intro n
  induction n with
  | zero => intro cs; simp
  | succ m ih =>
      intro cs
      rw [List.range_succ, List.foldl_append]
      simp [ih cs]

theorem foldl_set_get {T : Type} (rhs : T) :
    ∀ (n : Nat) (cs : List T) (i : Nat), i < n → i < cs.length →
      ((List.range n).foldl (fun cs i => cs.set i rhs) cs)[i]? = some rhs := by
  intro n
  induction n with
  | zero => intro cs i hi; omega
  | succ m ih =>
      intro cs i hi hlen
      rw [List.range_succ, List.foldl_append]
      simp only [List.foldl_cons, List.foldl_nil]
      rcases Nat.lt_or_ge i m with h | h
      · rw [List.getElem?_set_ne (by omega)]
        exact ih cs i h hlen
      · have him : i = m := by omega
        subst him
        exact List.getElem?_set_eq_of_lt rhs (by rw [foldl_set_length]; exact hlen)

theorem repl_assign_length {T : Type} (copies : List T) (rhs : T) :
    (repl_assign copies rhs).length = copies.length :=
  foldl_set_length rhs copies.length copies

theorem repl_assign_get {T : Type} (copies : List T) (rhs : T) (i : Nat)
    (hi : i < copies.length) :
    (repl_assign copies rhs)[i]? = some rhs :=
  foldl_set_get rhs copies.length copies i hi hi

/-- C1: For the replicated value wrapper `repl<T>`, after constructing with a
value `v` every partition's copy equals `v`, and after an assignment of `v'`
returns, every partition's copy equals `v'`. -/
theorem repl_broadcast_construct_then_assign {T : Type}
    (init : List T) (v v' : T) (i : Nat) (hi : i < init.length) :
    (repl_construct init v)[i]? = some v ∧
    (repl_assign (repl_construct init v) v')[i]? = some v' := by
  constructor
  · exact repl_assign_get init v i hi
  · apply repl_assign_get
    rw [repl_construct, repl_assign_length]
    exact hi

/-- C1 witness: across 4 partitions, constructing with 42 makes partition 2
read 42; assigning 7 then makes partition 2 read 7. -/
theorem repl_broadcast_construct_then_assign_witness :
    (repl_construct [0, 0, 0, 0] (42 : Int))[2]? = some 42 ∧
    (repl_assign (repl_construct [0, 0, 0, 0] (42 : Int)) 7)[2]? = some 7 :=
  repl_broadcast_construct_then_assign [0, 0, 0, 0] 42 7 2 (by decide)

end EmuRepl

namespace EmuReducer

/-!
Model of `reducer_base<Monoid>` (src/reducers.h lines 16-65) specialized to
the integer `op_add` monoid (lines 68-75): `identity() = 0`,
combine-into-shared `reduce(T*, T)` is a remote atomic add, local combine
`reduce(T&, T&)` is `+`.  Accumulator storage lives in a heap mapping
addresses (`Nat`) to values; a reducer instance carries the address of its
own `local_sum_` and the `global_sum_` pointer (`none` models `nullptr`).
-/

structure Reducer where
  addr : Nat
  globalSum : Option Nat
deriving DecidableEq

def op_add_identity : Int := 0

/-- `op_add<T>::reduce(T *lhs, T rhs)`: remote atomic add `*lhs += rhs`. -/
def op_add_reduce_into (heap : Nat → Int) (lhs : Nat) (rhs : Int) : Nat → Int :=
  Function.update heap lhs (heap lhs + rhs)

/-- `op_add<T>::reduce(T &lhs, T &rhs)`: local combine, returns `lhs + rhs`. -/
def op_add_reduce_local (lhs rhs : Int) : Int := lhs + rhs

/-- Default constructor (lines 27-29): `local_sum_ = identity()`,
`global_sum_ = &local_sum_` (the instance is its own target). -/
def reducer_default_ctor (heap : Nat → Int) (addr : Nat) : (Nat → Int) × Reducer :=
  (Function.update heap addr op_add_identity, ⟨addr, some addr⟩)

/-- Pointer constructor (lines 33-35): `local_sum_ = identity()`,
`global_sum_ = global_sum` argument. -/
def reducer_ptr_ctor (heap : Nat → Int) (addr : Nat) (globalSum : Nat) :
    (Nat → Int) × Reducer :=
  (Function.update heap addr op_add_identity, ⟨addr, some globalSum⟩)

/-- Copy constructor (lines 38-40): `local_sum_ = identity()`,
`global_sum_ = other.global_sum_` (the target pointer is propagated). -/
def reducer_copy_ctor (heap : Nat → Int) (addr : Nat) (other : Reducer) :
    (Nat → Int) × Reducer :=
  (Function.update heap addr op_add_identity, ⟨addr, other.globalSum⟩)

/-- Shallow copy constructor (lines 43-45): `local_sum_ = identity()`,
`global_sum_ = nullptr`. -/
def reducer_shallow_ctor (heap : Nat → Int) (addr : Nat) (_other : Reducer) :
    (Nat → Int) × Reducer :=
  (Function.update heap addr op_add_identity, ⟨addr, none⟩)

/-- Destructor (lines 48-53): `if (global_sum_ && global_sum_ != &local_sum_)
Monoid::reduce(global_sum_, local_sum_);`. -/
def reducer_dtor (heap : Nat → Int) (r : Reducer) : Nat → Int :=
  match r.globalSum with
  | none => heap
  | some g => if g = r.addr then heap else op_add_reduce_into heap g (heap r.addr)

/-- `reducer_opadd<T>::operator+=` (lines 106-108): `local_sum_ += rhs`. -/
def reducer_opadd_addassign (heap : Nat → Int) (r : Reducer) (rhs : Int) : Nat → Int :=
  Function.update heap r.addr (heap r.addr + rhs)

/-- `get_value()` on a non-replicated instance (lines 57-64, else branch):
returns `local_sum_` directly. -/
def reducer_get_value_local (heap : Nat → Int) (r : Reducer) : Int :=
  heap r.addr

/-- One child view's whole lifetime: copy-construct from `root` at fresh
address `caddr`, apply `operator+=` with increment `k` exactly `m` times,
then run the destructor. -/
def child_episode (heap : Nat → Int) (root : Reducer) (caddr : Nat)
    (m : Nat) (k : Int) : Nat → Int :=
  let init := reducer_copy_ctor heap caddr root
  let grown := (fun h => reducer_opadd_addassign h init.2 k)^[m] init.1
  reducer_dtor grown init.2

/-- `N` child views copied from `root` in sequence, child `i` living at
address `i + 1`, each adding `k` a total of `m` times then dying. -/
def run_children (heap : Nat → Int) (root : Reducer) (m : Nat) (k : Int)
    (N : Nat) : Nat → Int :=
  (List.range N).foldl (fun h i => child_episode h root (i + 1) m k) heap

/-- The concrete scenario: a root reduction variable plus three views that
add 10, 20 and 30 once each and are destroyed, then `get_value()`. -/
def scenario60 : Int :=
  let r := reducer_default_ctor (fun _ => 37) 0
  let h1 := child_episode r.1 r.2 1 1 10
  let h2 := child_episode h1 r.2 2 1 20
  let h3 := child_episode h2 r.2 3 1 30
  reducer_get_value_local h3 r.2

theorem addassign_iterate (caddr : Nat) (k : Int) :
    ∀ (m : Nat) (h : Nat → Int) (x : Nat),
      ((fun h => reducer_opadd_addassign h ⟨caddr, some 0⟩ k)^[m] h) x =
        if x = caddr then h caddr + m * k else h x := by
  intro m
  induction m with
  | zero => intro h x; by_cases hx : x = caddr <;> simp [hx]
  | succ p ih =>
      intro h x
      rw [Function.iterate_succ_apply]
      rw [ih]
      by_cases hx : x = caddr
      · simp [hx, reducer_opadd_addassign, Function.update, Nat.succ_eq_add_one]
        ring
      · simp [hx, reducer_opadd_addassign, Function.update]

theorem child_episode_heap (heap : Nat → Int) (caddr : Nat) (m : Nat) (k : Int)
    (hc : caddr ≠ 0) (x : Nat) :
    child_episode heap ⟨0, some 0⟩ caddr m k x =
      if x = 0 then heap 0 + m * k
      else if x = caddr then m * k else heap x := by
  have hgrow : ∀ y, ((fun h => reducer_opadd_addassign h ⟨caddr, some 0⟩ k)^[m]
      (Function.update heap caddr op_add_identity)) y =
      if y = caddr then (m : Int) * k else heap y := by
    intro y
    rw [addassign_iterate]
    by_cases hy : y = caddr
    · simp [hy, Function.update, op_add_identity]
    · simp [hy, Function.update]
  unfold child_episode reducer_copy_ctor reducer_dtor op_add_reduce_into
  simp only [if_neg (Ne.symm hc)]
  rw [Function.update_apply, hgrow, hgrow, hgrow]
  by_cases hx0 : x = 0
  · simp [hx0, Ne.symm hc]
  · by_cases hxc : x = caddr <;> simp [hx0, hxc, hc]

theorem run_children_root (heap : Nat → Int) (m : Nat) (k : Int) :
    ∀ N : Nat, run_children heap ⟨0, some 0⟩ m k N 0 = heap 0 + N * (m * k) := by
  intro N
  induction N with
  | zero => simp [run_children]
  | succ p ih =>
      unfold run_children at ih ⊢
      rw [List.range_succ, List.foldl_append, List.foldl_cons, List.foldl_nil]
      rw [child_episode_heap _ _ _ _ (Nat.succ_ne_zero p), if_pos rfl, ih]
      push_cast
      ring


/-- C2: a reduction tree of `reducer_opadd` views, each copy-constructed from
the root, each adding increment `k` exactly `m` times via `operator+=` and
then destroyed, leaves the root's `get_value()` equal to `N*m*k`; and the
concrete scenario of three views adding 10, 20, 30 yields 60. -/
theorem reduction_tree_get_value (heap : Nat → Int) (m N : Nat) (k : Int) :
    reducer_get_value_local
        (run_children (reducer_default_ctor heap 0).1 (reducer_default_ctor heap 0).2 m k N)
        (reducer_default_ctor heap 0).2 = N * m * k ∧
    scenario60 = 60 := by
  constructor
  · have hroot : (reducer_default_ctor heap 0).2 = ⟨0, some 0⟩ := rfl
    rw [reducer_get_value_local, hroot]
    have h0 : (reducer_default_ctor heap 0).1 0 = 0 := by
      simp [reducer_default_ctor, op_add_identity]
    rw [run_children_root _ m k N, h0]
    ring
  · decide

def zero_heap : Nat → Int := fun _ => 0

/-- A root reduction variable at address 0: `global_sum_` is its own storage. -/
def cx_root : Reducer := (reducer_default_ctor zero_heap 0).2

/-- A child copy-constructed from the root, living at address 1. -/
def cx_child : Reducer := (reducer_copy_ctor zero_heap 1 cx_root).2

/-- A copy of the child, living at address 2. -/
def cx_grandchild : Reducer := (reducer_copy_ctor zero_heap 2 cx_child).2

/-- C3 counterexample: copy-constructing from a child yields an instance whose
target is the root's storage (address 0), not the copied-from child's own
storage (address 1): `global_sum_(other.global_sum_)` propagates the pointer. -/
theorem reducer_copy_target_counterexample :
    cx_grandchild.globalSum = some 0 ∧ cx_child.addr = 1 ∧
    cx_grandchild.globalSum ≠ some cx_child.addr := by
  refine ⟨rfl, rfl, ?_⟩
  decide

/-- C3 amended: a default-constructed instance targets its own storage and its
destruction leaves the heap unchanged; a copy-constructed instance's target is
the copied-from instance's TARGET (`other.global_sum_`), equal to the
copied-from instance's own storage only when the copied-from is its own
target; a shallow-copy-constructed instance has no target and its destruction
leaves the heap unchanged; destruction of an instance whose target exists and
differs from its own storage folds `local_sum_` into the target via the
combine-into-shared operation. -/
theorem reducer_state_machine (heap h : Nat → Int) (a g : Nat)
    (other r : Reducer) (hg : r.globalSum = some g) (hga : g ≠ r.addr) :
    ((reducer_default_ctor heap a).2 = ⟨a, some a⟩ ∧
      reducer_dtor h ⟨a, some a⟩ = h) ∧
    (reducer_copy_ctor heap a other).2 = ⟨a, other.globalSum⟩ ∧
    ((reducer_shallow_ctor heap a other).2 = ⟨a, none⟩ ∧
      reducer_dtor h ⟨a, none⟩ = h) ∧
    reducer_dtor h r = Function.update h g (h g + h r.addr) := by
  refine ⟨⟨rfl, by simp [reducer_dtor]⟩, rfl, ⟨rfl, rfl⟩, ?_⟩
  simp only [reducer_dtor, hg, if_neg hga, op_add_reduce_into]

/-- C3 amended witness: the child at address 1 targets address 0; destroying
it folds its local sum into address 0. -/
theorem reducer_state_machine_witness :
    ((reducer_default_ctor zero_heap 5).2 = ⟨5, some 5⟩ ∧
      reducer_dtor zero_heap ⟨5, some 5⟩ = zero_heap) ∧
    (reducer_copy_ctor zero_heap 5 cx_child).2 = ⟨5, cx_child.globalSum⟩ ∧
    ((reducer_shallow_ctor zero_heap 5 cx_child).2 = ⟨5, none⟩ ∧
      reducer_dtor zero_heap ⟨5, none⟩ = zero_heap) ∧
    reducer_dtor zero_heap cx_child =
      Function.update zero_heap 0 (zero_heap 0 + zero_heap cx_child.addr) :=
  reducer_state_machine zero_heap zero_heap 5 0 cx_child cx_child rfl (by decide)

/-- Model of `repl_reduce` (src/replicated.h lines 391-400): start from
partition 0's copy, then for each partition id in `[1, n)` in order combine
the running value with that partition's copy. -/
def repl_reduce_loop {T : Type} (f : T → T → T) (copies : Nat → T) (n : Nat) : T :=
  (List.range' 1 (n - 1)).foldl (fun value nlet => f value (copies nlet)) (copies 0)

/-- `reducer_base::get_value()` (src/reducers.h lines 57-64): on a replicated
instance fold all partitions' accumulators with `repl_reduce`, otherwise
return `local_sum_` directly. -/
def reducer_base_get_value {T : Type} (isRepl : Bool) (f : T → T → T)
    (copies : Nat → T) (n : Nat) (localSum : T) : T :=
  if isRepl then repl_reduce_loop f copies n else localSum

theorem foldl_add_eq_sum (copies : Nat → Int) :
    ∀ (l : List Nat) (init : Int),
      l.foldl (fun v i => v + copies i) init = init + (l.map copies).sum := by
  intro l
  induction l with
  | nil => intro init; simp
  | cons a t ih =>
      intro init
      simp only [List.foldl_cons, List.map_cons, List.sum_cons, ih]
      ring

theorem range_eq_cons_range' (n : Nat) (hn : 1 ≤ n) :
    List.range n = 0 :: List.range' 1 (n - 1) := by
  obtain ⟨m, rfl⟩ : ∃ m, n = m + 1 := ⟨n - 1, by omega⟩
  rw [List.range_eq_range', List.range'_succ]
  simp

/-- C8: `get_value()` on a replicated reduction variable returns the fold of
all partitions' local accumulators combined with the local
combine-two-values, left-to-right starting from partition 0 (so for the
`op_add` monoid it is the sum of all partitions' accumulators); on a
non-replicated instance it returns the local accumulator directly. -/
theorem get_value_repl_fold (f : Int → Int → Int) (copies : Nat → Int) (n : Nat)
    (localSum : Int) (hn : 1 ≤ n) :
    reducer_base_get_value true f copies n localSum =
      List.foldl f (copies 0) (((List.range n).map copies).drop 1) ∧
    reducer_base_get_value true (fun a b => op_add_reduce_local a b) copies n
        localSum = ((List.range n).map copies).sum ∧
    reducer_base_get_value false f copies n localSum = localSum := by
  have hdrop : ((List.range n).map copies).drop 1 = (List.range' 1 (n - 1)).map copies := by
    rw [range_eq_cons_range' n hn]; simp
  refine ⟨?_, ?_, rfl⟩
  · rw [reducer_base_get_value, if_pos rfl, repl_reduce_loop, hdrop, List.foldl_map]
  · rw [reducer_base_get_value, if_pos rfl, repl_reduce_loop]
    simp only [op_add_reduce_local]
    rw [foldl_add_eq_sum, range_eq_cons_range' n hn]
    simp

/-- C8 witness: four partitions with accumulators 1,2,3,4 fold to 10 under
`op_add`; a non-replicated instance returns its local accumulator 99. -/
theorem get_value_repl_fold_witness :
    reducer_base_get_value true (fun a b => a - b) (fun i => (i : Int) + 1) 4 99 =
      List.foldl (fun a b => a - b) (((fun i => (i : Int) + 1) 0))
        (((List.range 4).map (fun i => (i : Int) + 1)).drop 1) ∧
    reducer_base_get_value true (fun a b => op_add_reduce_local a b)
        (fun i => (i : Int) + 1) 4 99 =
      ((List.range 4).map (fun i => (i : Int) + 1)).sum ∧
    reducer_base_get_value false (fun a b => a - b) (fun i => (i : Int) + 1) 4 99 = 99 :=
  get_value_repl_fold (fun a b => a - b) (fun i => (i : Int) + 1) 4 99 (by decide)

end EmuReducer

namespace EmuArray

/-!
Models of `striped_array<T>` (src/striped_array.h) and `repl_array<T>`
(src/repl_array.h).  A raw buffer is a list of `Option T` slots (`none` =
uninitialized memory); the data pointer is `Option`-wrapped (`none` = null).
`striped_array` owns one interleaved buffer; `repl_array` owns one buffer per
nodelet.
-/

structure StripedArray (T : Type) where
  ptr : Option (List (Option T))
  n : Nat
deriving DecidableEq

structure ReplArray (T : Type) where
  nodelets : Nat
  data : Option (List (List (Option T)))
  size : Nat
deriving DecidableEq

/-- The effect of allocate + `memcpy(new_ptr, ptr_, n_ * sizeof(T))` on one
buffer: the first `oldn` slots are copied, the rest of the `newn` slots are
fresh uninitialized memory. -/
def grow_buffer {T : Type} (buf : List (Option T)) (oldn newn : Nat) :
    List (Option T) :=
  buf.take oldn ++ List.replicate (newn - oldn) none

/-- `striped_array::resize` (src/striped_array.h lines 132-150): when
`new_size > n_`, allocate, copy the first `n_` elements, free the old buffer,
save the new pointer; in all cases `n_ = new_size` at the end. -/
def striped_resize {T : Type} (a : StripedArray T) (new_size : Nat) :
    StripedArray T :=
  if a.n < new_size then
    match a.ptr with
    | some buf => ⟨some (grow_buffer buf a.n new_size), new_size⟩
    | none => ⟨some (List.replicate new_size none), new_size⟩
  else
    ⟨a.ptr, new_size⟩

/-- `striped_array::clear` (src/striped_array.h lines 152-156):
`free_storage(); n_ = 0;` — the pointer becomes null and the size zero. -/
def striped_clear {T : Type} (_a : StripedArray T) : StripedArray T :=
  ⟨none, 0⟩

/-- `repl_array::resize` (src/repl_array.h lines 102-124): when
`new_size > size_`, allocate, copy the first `size_` elements of every
nodelet's buffer, free the old storage, save the new pointer; in all cases
`size_ = new_size` at the end. -/
def repl_array_resize {T : Type} (a : ReplArray T) (new_size : Nat) :
    ReplArray T :=
  if a.size < new_size then
    match a.data with
    | some bufs =>
        ⟨a.nodelets, some (bufs.map (fun b => grow_buffer b a.size new_size)),
          new_size⟩
    | none =>
        ⟨a.nodelets, some (List.replicate a.nodelets (List.replicate new_size none)),
          new_size⟩
  else
    ⟨a.nodelets, a.data, new_size⟩

/-- The public member functions of `striped_array<T>`
(src/striped_array.h lines 41-156). -/
def striped_array_members : List String :=
  ["begin", "end", "cbegin", "cend", "data", "front", "back", "swap",
   "operator=", "operator[]", "size", "resize", "clear"]

/-- The public member functions of `repl_array<T>`
(src/repl_array.h lines 24-124). -/
def repl_array_members : List String :=
  ["swap", "operator=", "get_nth", "get_localto", "data", "size", "resize"]

theorem grow_buffer_getElem {T : Type} (buf : List (Option T)) (oldn newn i : Nat)
    (hi : i < oldn) (hlen : oldn ≤ buf.length) :
    (grow_buffer buf oldn newn)[i]? = buf[i]? := by
  have hL : i < (List.take oldn buf).length := by
    rw [List.length_take]; omega
  rw [grow_buffer, List.getElem?_append, if_pos hL, List.getElem?_take_of_lt hi]

theorem grow_buffer_length {T : Type} (buf : List (Option T)) (oldn newn : Nat)
    (hlen : oldn ≤ buf.length) (hn : oldn ≤ newn) :
    (grow_buffer buf oldn newn).length = newn := by
  rw [grow_buffer, List.length_append, List.length_take, List.length_replicate]
  omega

/-- C4 counterexample: resizing a 5-element array down to 3 is not a no-op —
`size()` becomes 3, not 5 (`n_ = new_size` runs unconditionally in
`striped_array::resize`). -/
theorem resize_shrink_counterexample :
    (striped_resize (⟨some [some 1, some 2, some 3, some 4, some 5], 5⟩ :
        StripedArray Int) 3).n = 3 ∧
    (⟨some [some 1, some 2, some 3, some 4, some 5], 5⟩ :
        StripedArray Int).n = 5 ∧
    (striped_resize (⟨some [some 1, some 2, some 3, some 4, some 5], 5⟩ :
        StripedArray Int) 3).n ≠
      (⟨some [some 1, some 2, some 3, some 4, some 5], 5⟩ :
        StripedArray Int).n := by
  refine ⟨rfl, rfl, ?_⟩
  decide

/-- C4 amended: for both array types, `resize(new_size)` with
`new_size > size()` installs a new buffer that preserves every previously
written element, leaves the added slots uninitialized but present (the new
buffer has `new_size` slots), and sets the size; `resize(new_size)` with
`new_size <= size()` leaves the buffer pointer unchanged but still sets
`size()` to `new_size` (so shrinking the size counter does happen; only the
storage is never shrunk). -/
theorem array_resize_semantics {T : Type}
    (sa : StripedArray T) (sbuf : List (Option T)) (gsz ssz i : Nat)
    (ra : ReplArray T) (rbufs : List (List (Option T)))
    (rbuf : List (Option T)) (gsz2 ssz2 nlet i2 : Nat)
    (hsp : sa.ptr = some sbuf) (hslen : sa.n ≤ sbuf.length)
    (hg : sa.n < gsz) (hss : ssz ≤ sa.n) (hi : i < sa.n)
    (hrp : ra.data = some rbufs) (hrlen : ra.size ≤ rbuf.length)
    (hg2 : ra.size < gsz2) (hss2 : ssz2 ≤ ra.size)
    (hnlet : rbufs[nlet]? = some rbuf) (hi2 : i2 < ra.size) :
    striped_resize sa gsz = ⟨some (grow_buffer sbuf sa.n gsz), gsz⟩ ∧
    (grow_buffer sbuf sa.n gsz)[i]? = sbuf[i]? ∧
    (grow_buffer sbuf sa.n gsz).length = gsz ∧
    striped_resize sa ssz = ⟨sa.ptr, ssz⟩ ∧
    repl_array_resize ra gsz2 =
      ⟨ra.nodelets, some (rbufs.map (fun b => grow_buffer b ra.size gsz2)), gsz2⟩ ∧
    (rbufs.map (fun b => grow_buffer b ra.size gsz2))[nlet]? =
      some (grow_buffer rbuf ra.size gsz2) ∧
    (grow_buffer rbuf ra.size gsz2)[i2]? = rbuf[i2]? ∧
    (grow_buffer rbuf ra.size gsz2).length = gsz2 ∧
    repl_array_resize ra ssz2 = ⟨ra.nodelets, ra.data, ssz2⟩ := by
  refine ⟨?_, grow_buffer_getElem sbuf sa.n gsz i hi hslen,
    grow_buffer_length sbuf sa.n gsz hslen (by omega), ?_, ?_, ?_,
    grow_buffer_getElem rbuf ra.size gsz2 i2 hi2 hrlen,
    grow_buffer_length rbuf ra.size gsz2 hrlen (by omega), ?_⟩
  · rw [striped_resize, if_pos hg, hsp]
  · rw [striped_resize, if_neg (by omega)]
  · rw [repl_array_resize, if_pos hg2, hrp]
  · rw [List.getElem?_map, hnlet]
    rfl
  · rw [repl_array_resize, if_neg (by omega)]

/-- C4 amended witness: a concrete 5-slot striped array grown to 7 and shrunk
to 3, and a concrete 2-nodelet replicated array of size 2 grown to 4 and
shrunk to 1. -/
theorem array_resize_semantics_witness :
    striped_resize (⟨some [some 1, some 2, some 3, some 4, some 5], 5⟩ :
        StripedArray Int) 7 =
      ⟨some (grow_buffer [some 1, some 2, some 3, some 4, some 5] 5 7), 7⟩ ∧
    (grow_buffer [some (1 : Int), some 2, some 3, some 4, some 5] 5 7)[2]? =
      [some (1 : Int), some 2, some 3, some 4, some 5][2]? ∧
    (grow_buffer [some (1 : Int), some 2, some 3, some 4, some 5] 5 7).length = 7 ∧
    striped_resize (⟨some [some 1, some 2, some 3, some 4, some 5], 5⟩ :
        StripedArray Int) 3 =
      ⟨(⟨some [some 1, some 2, some 3, some 4, some 5], 5⟩ :
          StripedArray Int).ptr, 3⟩ ∧
    repl_array_resize (⟨2, some [[some 10, some 11], [some 20, some 21]], 2⟩ :
        ReplArray Int) 4 =
      ⟨2, some ([[some 10, some 11], [some 20, some 21]].map
          (fun b => grow_buffer b 2 4)), 4⟩ ∧
    ([[some (10 : Int), some 11], [some 20, some 21]].map
        (fun b => grow_buffer b 2 4))[1]? =
      some (grow_buffer [some 20, some 21] 2 4) ∧
    (grow_buffer [some (20 : Int), some 21] 2 4)[0]? =
      [some (20 : Int), some 21][0]? ∧
    (grow_buffer [some (20 : Int), some 21] 2 4).length = 4 ∧
    repl_array_resize (⟨2, some [[some 10, some 11], [some 20, some 21]], 2⟩ :
        ReplArray Int) 1 =
      ⟨2, (⟨2, some [[some 10, some 11], [some 20, some 21]], 2⟩ :
          ReplArray Int).data, 1⟩ :=
  array_resize_semantics
    ⟨some [some 1, some 2, some 3, some 4, some 5], 5⟩
    [some 1, some 2, some 3, some 4, some 5] 7 3 2
    ⟨2, some [[some 10, some 11], [some 20, some 21]], 2⟩
    [[some 10, some 11], [some 20, some 21]]
    [some 20, some 21] 4 1 1 0
    rfl (by decide) (by decide) (by decide) (by decide)
    rfl (by decide) (by decide) (by decide) (by decide) (by decide)

/-- C9 counterexample: it is not the case that both array types expose
`clear()` — `repl_array` has no such member. -/
theorem clear_membership_counterexample :
    ¬ ("clear" ∈ striped_array_members ∧ "clear" ∈ repl_array_members) := by
  decide

/-- C9 amended: only `striped_array` exposes `clear()`; `repl_array` does not.
After `striped_array::clear()` the storage pointer is null and `size()` is 0. -/
theorem clear_semantics {T : Type} (a : StripedArray T) :
    "clear" ∈ striped_array_members ∧ "clear" ∉ repl_array_members ∧
    (striped_clear a).ptr = none ∧ (striped_clear a).n = 0 :=
  ⟨by decide, by decide, rfl, rfl⟩

/-- `static_assert(sizeof(T) == 8, "emu_striped_array can only hold 64-bit
data types")` (src/striped_array.h line 18), as a predicate on `sizeof(T)`. -/
def striped_array_size_check (sizeofT : Nat) : Bool := sizeofT == 8

/-- C10: `striped_array<T>` instantiates exactly when `sizeof(T)` is 8 bytes;
every other element size fails the static assertion. -/
theorem striped_array_element_size (s : Nat) (hs : s ≠ 8) :
    striped_array_size_check 8 = true ∧ striped_array_size_check s = false := by
  constructor
  · decide
  · simp [striped_array_size_check, hs]

/-- C10 witness: a 4-byte element type is rejected, an 8-byte one accepted. -/
theorem striped_array_element_size_witness :
    striped_array_size_check 8 = true ∧ striped_array_size_check 4 = false :=
  striped_array_element_size 4 (by decide)

end EmuArray

namespace EmuShallowDeep

/-!
Models of `repl_shallow<T>` and `repl_deep<T>` (src/replicated.h lines
147-250 and 330-377).  The per-partition copies of one replicated object are
a map from partition id to `Option T` (`none` = raw, unconstructed memory);
destructor invocations are recorded as the list of partition ids whose copy
of `T` gets destructed, in execution order.
-/

/-- `repl_deep<T>`'s constructor (src/replicated.h lines 346-363): the base
initializer constructs the origin copy from the forwarded arguments, then the
loop placement-constructs every other partition's copy with the same
arguments, skipping the origin. -/
def repl_deep_construct {T A : Type} (n origin : Nat) (ctor : A → T) (args : A) :
    Nat → Option T :=
  (List.range n).foldl
    (fun copies i =>
      if i = origin then copies
      else Function.update copies i (some (ctor args)))
    (Function.update (fun _ => none) origin (some (ctor args)))

/-- `repl_deep<T>::~repl_deep` (src/replicated.h lines 365-377): the loop
explicitly destructs every non-origin copy in increasing partition order,
then the origin copy's destructor runs as the normal base-class destructor. -/
def repl_deep_dtor_trace (n origin : Nat) : List Nat :=
  ((List.range n).filter (fun i => i ≠ origin)) ++ [origin]

/-- `repl_shallow<T>` declares no destructor (src/replicated.h lines 147-250):
destroying it runs only the inherited `T` destructor on the origin copy; the
non-origin shallow copies are never destructed, whatever the partition
count. -/
def repl_shallow_dtor_trace (_n origin : Nat) : List Nat := [origin]

/-- Writing value `v` through partition `i`'s reference (`get_nth(i) = v`):
only slot `i` of the per-partition storage is touched. -/
def mutate_nth {T : Type} (copies : Nat → Option T) (i : Nat) (v : T) :
    Nat → Option T :=
  Function.update copies i (some v)

/-- C5: destroying a `repl_shallow<T>` invokes `T`'s destructor exactly once,
on the origin copy only, for every partition count: the destructor trace is
one invocation long, and partition `i` appears in it once if `i` is the
origin and never otherwise. -/
theorem repl_shallow_dtor_once (n origin i : Nat) :
    (repl_shallow_dtor_trace n origin).length = 1 ∧
    (repl_shallow_dtor_trace n origin).count i =
      (if i = origin then 1 else 0) := by
  refine ⟨rfl, ?_⟩
  by_cases hio : i = origin
  · simp [repl_shallow_dtor_trace, hio]
  · simp [repl_shallow_dtor_trace, List.count_cons, hio]

theorem repl_deep_construct_foldl {T A : Type} (origin : Nat) (ctor : A → T)
    (args : A) :
    ∀ (m : Nat) (state : Nat → Option T) (i : Nat),
      ((List.range m).foldl
        (fun copies j =>
          if j = origin then copies
          else Function.update copies j (some (ctor args))) state) i =
      if i < m ∧ i ≠ origin then some (ctor args) else state i := by
  intro m
  induction m with
  | zero => intro state i; simp
  | succ p ih =>
      intro state i
      rw [List.range_succ, List.foldl_append, List.foldl_cons, List.foldl_nil]
      by_cases hpo : p = origin
      · rw [if_pos hpo, ih]
        by_cases h1 : i < p ∧ i ≠ origin
        · rw [if_pos h1, if_pos ⟨by omega, h1.2⟩]
        · rw [if_neg h1, if_neg (by omega)]
      · rw [if_neg hpo]
        by_cases hip : i = p
        · subst hip
          rw [Function.update_same, if_pos ⟨by omega, hpo⟩]
        · rw [Function.update_noteq hip, ih]
          by_cases h1 : i < p ∧ i ≠ origin
          · rw [if_pos h1, if_pos ⟨by omega, h1.2⟩]
          · rw [if_neg h1, if_neg (by omega)]

theorem repl_deep_dtor_count (n origin i : Nat) (hi : i < n) (ho : origin < n) :
    (repl_deep_dtor_trace n origin).count i = 1 := by
  rw [repl_deep_dtor_trace, List.count_append]
  by_cases hio : i = origin
  · subst hio
    have h0 : ((List.range n).filter (fun j => j ≠ i)).count i = 0 := by
      apply List.count_eq_zero_of_not_mem
      intro hmem
      have := List.of_mem_filter hmem
      simp at this
    rw [h0]
    simp
  · have h1 : ((List.range n).filter (fun j => j ≠ origin)).count i = 1 := by
      apply List.count_eq_one_of_mem
      · exact (List.nodup_range n).filter _
      · rw [List.mem_filter]
        exact ⟨List.mem_range.mpr hi, by simpa using hio⟩
    rw [h1]
    simp [List.count_singleton, hio]

/-- C6: for `repl_deep<T>`, every partition's copy is constructed with the
same forwarded arguments; destroying it destructs every partition's copy
exactly once; and writing through partition `i`'s reference never changes any
other partition's observed value. -/
theorem repl_deep_independent {T A : Type} (n origin i j : Nat)
    (ctor : A → T) (args : A) (copies : Nat → Option T) (v : T)
    (hi : i < n) (ho : origin < n) (hj : j ≠ i) :
    repl_deep_construct n origin ctor args i = some (ctor args) ∧
    (repl_deep_dtor_trace n origin).count i = 1 ∧
    mutate_nth copies i v j = copies j := by
  refine ⟨?_, repl_deep_dtor_count n origin i hi ho, Function.update_noteq hj _ _⟩
  rw [repl_deep_construct, repl_deep_construct_foldl]
  by_cases hio : i = origin
  · subst hio
    simp
  · rw [if_pos ⟨hi, hio⟩]

/-- C6 witness: 4 partitions, origin 1; partition 2's copy is constructed from
the shared argument 5, destructed exactly once, and writing 9 into partition
2 leaves partition 3's copy untouched. -/
theorem repl_deep_independent_witness :
    repl_deep_construct 4 1 (fun a : Int => a) 5 2 = some 5 ∧
    (repl_deep_dtor_trace 4 1).count 2 = 1 ∧
    mutate_nth (fun _ => (none : Option Int)) 2 9 3 = none :=
  repl_deep_independent 4 1 2 3 (fun a : Int => a) 5 (fun _ => none) 9
    (by decide) (by decide) (by decide)

end EmuShallowDeep

namespace EmuWalk

/-!
Model of `repl_for_each` (src/replicated.h lines 38-92).  A traversal is
recorded as the list of partition ids the worker is invoked on, in the order
the invocations are issued; for the parallel policy the spawned subtrees run
concurrently, so only the collection of invocations (the list up to
permutation) is meaningful.
-/

/-- `detail::repl_for_each(sequenced_policy, ...)` (src/replicated.h lines
38-48): `for (long nlet = nlet_begin; nlet < nlet_end; ++nlet) worker(...)`,
visiting each partition id in `[nlet_begin, nlet_end)` in increasing order. -/
def seq_visits (b e : Nat) : List Nat :=
  if b < e then b :: seq_visits (b + 1) e else []
  termination_by e - b

/-- `detail::repl_for_each(parallel_policy<Grain>, ...)` (src/replicated.h
lines 50-73): while the remaining range exceeds the grain, split it at the
midpoint, spawn a task for the upper half, and continue with the lower half;
a range of size at most the grain is executed sequentially.  The list
collects the lower half's invocations before the spawned upper half's.
`fuel` bounds the recursion depth: the C++ recursion itself does not
terminate when `Grain < 1`, and `par_visits_perm` shows the fuel is
irrelevant whenever `Grain >= 1` and `fuel >= nlet_end - nlet_begin`. -/
def par_visits (fuel grain b e : Nat) : List Nat :=
  match fuel with
  | 0 => []
  | fuel + 1 =>
      if e - b ≤ grain then seq_visits b e
      else
        par_visits fuel grain b (b + (e - b) / 2) ++
          par_visits fuel grain (b + (e - b) / 2) e

theorem seq_visits_eq_range' (b e : Nat) : seq_visits b e = List.range' b (e - b) := by
  generalize hd : e - b = d
  induction d generalizing b with
  | zero =>
      rw [seq_visits, if_neg (by omega)]
      rfl
  | succ p ih =>
      rw [seq_visits, if_pos (by omega), List.range'_succ]
      rw [ih (b + 1) (by omega)]

theorem seq_visits_count (b e i : Nat) (hb : b ≤ i) (he : i < e) :
    (seq_visits b e).count i = 1 := by
  rw [seq_visits_eq_range']
  exact List.count_eq_one_of_mem
    ((List.pairwise_lt_range' b (e - b) 1).imp Nat.ne_of_lt)
    (List.mem_range'_1.mpr ⟨hb, by omega⟩)

theorem seq_visits_append (b m e : Nat) (hbm : b ≤ m) (hme : m ≤ e) :
    seq_visits b m ++ seq_visits m e = seq_visits b e := by
  rw [seq_visits_eq_range', seq_visits_eq_range', seq_visits_eq_range']
  have h := List.range'_append b (m - b) (e - m) 1
  simp only [Nat.mul_one, Nat.one_mul] at h
  have h1 : b + (m - b) = m := by omega
  rw [h1] at h
  rw [h]
  congr 1
  omega

theorem par_visits_perm (grain : Nat) (hg : 1 ≤ grain) :
    ∀ (fuel b e : Nat), e - b ≤ fuel →
      List.Perm (par_visits fuel grain b e) (seq_visits b e) := by
  intro fuel
  induction fuel with
  | zero =>
      intro b e hf
      rw [par_visits, seq_visits, if_neg (by omega)]
  | succ p ih =>
      intro b e hf
      rw [par_visits]
      by_cases hsmall : e - b ≤ grain
      · rw [if_pos hsmall]
      · rw [if_neg hsmall]
        have h2 : 2 ≤ e - b := by omega
        have hmid1 : (b + (e - b) / 2) - b ≤ p := by omega
        have hmid2 : e - (b + (e - b) / 2) ≤ p := by omega
        have hperm :=
          (ih b (b + (e - b) / 2) hmid1).append (ih (b + (e - b) / 2) e hmid2)
        rw [seq_visits_append b (b + (e - b) / 2) e (by omega) (by omega)] at hperm
        exact hperm

/-- C7: `repl_for_each` invokes the worker exactly once per partition id in
`[0, PartitionCount)` under both policies; the sequential policy visits the
partitions in increasing id order; and the parallel policy with grain
`G >= 1` (given recursion depth at least `PartitionCount`) performs a
permutation of the sequential policy's invocations, hence also exactly one
invocation per partition. -/
theorem repl_for_each_once_per_partition (N grain fuel i : Nat)
    (hg : 1 ≤ grain) (hf : N ≤ fuel) (hi : i < N) :
    (seq_visits 0 N).count i = 1 ∧
    List.Pairwise (· < ·) (seq_visits 0 N) ∧
    List.Perm (par_visits fuel grain 0 N) (seq_visits 0 N) ∧
    (par_visits fuel grain 0 N).count i = 1 := by
  have hperm := par_visits_perm grain hg fuel 0 N (by omega)
  refine ⟨seq_visits_count 0 N i (Nat.zero_le i) hi, ?_, hperm, ?_⟩
  · rw [seq_visits_eq_range']
    exact List.pairwise_lt_range' 0 (N - 0) 1
  · rw [hperm.count_eq]
    exact seq_visits_count 0 N i (Nat.zero_le i) hi

/-- C7 witness: 8 partitions, grain 2 — the worker runs once on partition 5
under both policies, and the parallel task tree's invocations are a
permutation of the sequential ones. -/
theorem repl_for_each_once_per_partition_witness :
    (seq_visits 0 8).count 5 = 1 ∧
    List.Pairwise (· < ·) (seq_visits 0 8) ∧
    List.Perm (par_visits 8 2 0 8) (seq_visits 0 8) ∧
    (par_visits 8 2 0 8).count 5 = 1 :=
  repl_for_each_once_per_partition 8 2 8 5 (by decide) (by decide) (by decide)

end EmuWalk
